import Mathlib

/-!
Verification of the pecoregex document-evaluation engine.

This file gives a shallow embedding, in Lean 4, of the parts of the
pecoregex code base (src/pecoregex/util.py, src/pecoregex/pcre.py) that the
specification talks about:

* the option normaliser (`extract_options`, `normalise_constant`,
  `normalise_options`, `extract_option_values`, `or_options`) together with
  the table of `PCRE_*` constants from pcre.py;
* the reference resolver (`get_value`);
* the capture extractor (`get_captures`) and the name-table helper
  (`ordered_nametable`);
* the document processor (`process`) with its per-pattern compile /
  execute / free lifecycle.

Foreign code (libpcre itself, reached through ctypes) is not part of the
repository; calls into it are abstracted by an `Engine` record whose
`compile` either returns an opaque numeric handle or a structured compile
error, and whose `exec` either returns a capture structure or `none`
("no match").  Python strings are Lean `String`s (in this tool chain a
`String` is a wrapper around `List Char`), Python's `str.upper` is modelled
for ASCII letters, dictionaries are association lists, and Python
exceptions are modelled with `Except` / `Option`.
-/

namespace Pecoregex

/-- A Python value that is either a single string or a list of strings;
this is the input type of `extract_options` (util.py line 36:
`if not isinstance(arg_values, list): arg_values = [arg_values]`). -/
inductive StrOrList where
  | str (s : String)
  | list (l : List String)
deriving DecidableEq, Repr

/-- The characters removed by Python's `str.strip()` (ASCII fragment). -/
def isPySpace (c : Char) : Bool :=
  c = ' ' || c = '\t' || c = '\n' || c = '\x0d' || c = '\x0b' || c = '\x0c'

/-- Python's `value.split(sep)` on a list of characters: splitting the empty
string yields one empty field, and separators delimit (possibly empty)
fields. -/
def pySplitChar (sep : Char) : List Char → List (List Char)
  | [] => [[]]
  | c :: rest =>
    match pySplitChar sep rest with
    | [] => [[c]]
    | h :: t => if c = sep then [] :: h :: t else (c :: h) :: t

/-- Python's `str.strip()`: drop leading and trailing whitespace. -/
def pyStrip (s : List Char) : List Char :=
  ((s.dropWhile isPySpace).reverse.dropWhile isPySpace).reverse

/-- `option.strip()` lifted to `String`. -/
def stripOption (s : String) : String := String.mk (pyStrip s.toList)

/-- `value.split('|')` lifted to `String`. -/
def splitPipe (s : String) : List String := (pySplitChar '|' s.toList).map String.mk

/-- The underlying list of strings of a `StrOrList`
(util.py line 36-37: wrap a bare string into a one-element list). -/
def strsOf : StrOrList → List String
  | .str s => [s]
  | .list l => l

/-- The inner loop of `extract_options` (util.py lines 39-42):
`for option in value.split('|'): option = option.strip(); if option: yield option`. -/
def yieldOptions : List String → List String
  | [] => []
  | o :: os =>
    let t := stripOption o
    if t = "" then yieldOptions os else t :: yieldOptions os

/-- The outer loop of `extract_options` (util.py lines 38-42):
iterate over the strings of `arg_values`, yielding from each. -/
def extractLoop : List String → List String
  | [] => []
  | s :: rest => yieldOptions (splitPipe s) ++ extractLoop rest

/-- `extract_options(arg_values)` from util.py lines 30-42. -/
def extract_options (v : StrOrList) : List String :=
  extractLoop (strsOf v)

/-- Modelled from the spec wording for claim C6, to be compared against
`extract_options`: "yields exactly the whitespace-trimmed non-empty
segments, in their original order". -/
def extract_options_spec (v : StrOrList) : List String :=
  (((strsOf v).map splitPipe).flatten.map stripOption).filter (fun t => t ≠ "")

theorem yieldOptions_eq (os : List String) :
    yieldOptions os = (os.map stripOption).filter (fun t => t ≠ "") := by
  induction os with
  | nil => rfl
  | cons o os ih =>
    by_cases h : stripOption o = ""
    · simp [yieldOptions, h, ih]
    · simp [yieldOptions, h, ih]

theorem extractLoop_eq (l : List String) :
    extractLoop l = ((l.map splitPipe).flatten.map stripOption).filter (fun t => t ≠ "") := by
  induction l with
  | nil => rfl
  | cons s rest ih =>
    simp [extractLoop, yieldOptions_eq, ih]

/-- C6: for every input that is a string or ordered sequence of strings,
`extract_options` yields exactly the whitespace-trimmed non-empty
`|`-separated segments, in their original order, duplicates preserved. -/
theorem extract_options_trimmed_segments (v : StrOrList) :
    extract_options v = extract_options_spec v := by
  cases v with
  | str s => simp [extract_options, extract_options_spec, strsOf, extractLoop_eq]
  | list l => simp [extract_options, extract_options_spec, strsOf, extractLoop_eq]

/-- ASCII lowercase → uppercase table, modelling Python's `str.upper()` on
the ASCII letters (the only characters that can matter for `PCRE_*`
constant lookup). -/
def lowerUpper : List (Char × Char) :=
  [('a', 'A'), ('b', 'B'), ('c', 'C'), ('d', 'D'), ('e', 'E'), ('f', 'F'),
   ('g', 'G'), ('h', 'H'), ('i', 'I'), ('j', 'J'), ('k', 'K'), ('l', 'L'),
   ('m', 'M'), ('n', 'N'), ('o', 'O'), ('p', 'P'), ('q', 'Q'), ('r', 'R'),
   ('s', 'S'), ('t', 'T'), ('u', 'U'), ('v', 'V'), ('w', 'W'), ('x', 'X'),
   ('y', 'Y'), ('z', 'Z')]

/-- Uppercase one character (identity outside lowercase ASCII letters). -/
def upChar (c : Char) : Char :=
  match lowerUpper.lookup c with
  | some u => u
  | none => c

/-- `name.upper()` (util.py line 18), ASCII model. -/
def pyUpper (s : String) : String := String.mk (s.toList.map upChar)

/-- `name.startswith('PCRE_')` (util.py line 19). -/
def startsWithPCRE : List Char → Bool
  | 'P' :: 'C' :: 'R' :: 'E' :: '_' :: _ => true
  | _ => false

/-- `normalise_constant(name)` from util.py lines 14-21: uppercase, then
prepend `PCRE_` unless already present. -/
def normalise_constant (name : String) : String :=
  let n := pyUpper name
  if startsWithPCRE n.toList then n else "PCRE_" ++ n

/-- Every module-level `PCRE_*` constant of pcre.py (lines 17-96): option
bits, info codes and config codes, exactly the names `getattr(pcre, ...)`
can reach after `normalise_constant`. -/
def pcreConstants : List (String × Nat) :=
  [("PCRE_CASELESS", 0x00000001), ("PCRE_MULTILINE", 0x00000002),
   ("PCRE_DOTALL", 0x00000004), ("PCRE_EXTENDED", 0x00000008),
   ("PCRE_ANCHORED", 0x00000010), ("PCRE_DOLLAR_ENDONLY", 0x00000020),
   ("PCRE_EXTRA", 0x00000040), ("PCRE_NOTBOL", 0x00000080),
   ("PCRE_NOTEOL", 0x00000100), ("PCRE_UNGREEDY", 0x00000200),
   ("PCRE_NOTEMPTY", 0x00000400), ("PCRE_UTF8", 0x00000800),
   ("PCRE_UTF16", 0x00000800), ("PCRE_UTF32", 0x00000800),
   ("PCRE_NO_AUTO_CAPTURE", 0x00001000), ("PCRE_NO_UTF8_CHECK", 0x00002000),
   ("PCRE_NO_UTF16_CHECK", 0x00002000), ("PCRE_NO_UTF32_CHECK", 0x00002000),
   ("PCRE_AUTO_CALLOUT", 0x00004000), ("PCRE_PARTIAL_SOFT", 0x00008000),
   ("PCRE_PARTIAL", 0x00008000), ("PCRE_NEVER_UTF", 0x00010000),
   ("PCRE_DFA_SHORTEST", 0x00010000), ("PCRE_NO_AUTO_POSSESS", 0x00020000),
   ("PCRE_DFA_RESTART", 0x00020000), ("PCRE_FIRSTLINE", 0x00040000),
   ("PCRE_DUPNAMES", 0x00080000), ("PCRE_NEWLINE_CR", 0x00100000),
   ("PCRE_NEWLINE_LF", 0x00200000), ("PCRE_NEWLINE_CRLF", 0x00300000),
   ("PCRE_NEWLINE_ANY", 0x00400000), ("PCRE_NEWLINE_ANYCRLF", 0x00500000),
   ("PCRE_BSR_ANYCRLF", 0x00800000), ("PCRE_BSR_UNICODE", 0x01000000),
   ("PCRE_JAVASCRIPT_COMPAT", 0x02000000), ("PCRE_NO_START_OPTIMIZE", 0x04000000),
   ("PCRE_NO_START_OPTIMISE", 0x04000000), ("PCRE_PARTIAL_HARD", 0x08000000),
   ("PCRE_NOTEMPTY_ATSTART", 0x10000000), ("PCRE_UCP", 0x20000000),
   ("PCRE_INFO_OPTIONS", 0), ("PCRE_INFO_SIZE", 1),
   ("PCRE_INFO_CAPTURECOUNT", 2), ("PCRE_INFO_BACKREFMAX", 3),
   ("PCRE_INFO_FIRSTBYTE", 4), ("PCRE_INFO_FIRSTCHAR", 4),
   ("PCRE_INFO_FIRSTTABLE", 5), ("PCRE_INFO_LASTLITERAL", 6),
   ("PCRE_INFO_NAMEENTRYSIZE", 7), ("PCRE_INFO_NAMECOUNT", 8),
   ("PCRE_INFO_NAMETABLE", 9), ("PCRE_INFO_STUDYSIZE", 10),
   ("PCRE_INFO_DEFAULT_TABLES", 11), ("PCRE_INFO_OKPARTIAL", 12),
   ("PCRE_INFO_JCHANGED", 13), ("PCRE_INFO_HASCRORLF", 14),
   ("PCRE_INFO_MINLENGTH", 15), ("PCRE_INFO_JIT", 16),
   ("PCRE_INFO_JITSIZE", 17), ("PCRE_INFO_MAXLOOKBEHIND", 18),
   ("PCRE_INFO_FIRSTCHARACTER", 19), ("PCRE_INFO_FIRSTCHARACTERFLAGS", 20),
   ("PCRE_INFO_REQUIREDCHAR", 21), ("PCRE_INFO_REQUIREDCHARFLAGS", 22),
   ("PCRE_CONFIG_UTF8", 0), ("PCRE_CONFIG_NEWLINE", 1),
   ("PCRE_CONFIG_LINK_SIZE", 2), ("PCRE_CONFIG_POSIX_MALLOC_THRESHOLD", 3),
   ("PCRE_CONFIG_MATCH_LIMIT", 4), ("PCRE_CONFIG_STACKRECURSE", 5),
   ("PCRE_CONFIG_UNICODE_PROPERTIES", 6), ("PCRE_CONFIG_MATCH_LIMIT_RECURSION", 7),
   ("PCRE_CONFIG_BSR", 8), ("PCRE_CONFIG_JIT", 9),
   ("PCRE_CONFIG_UTF16", 10), ("PCRE_CONFIG_JITTARGET", 11),
   ("PCRE_CONFIG_UTF32", 12), ("PCRE_CONFIG_PARENS_LIMIT", 13)]

/-- `constant(name)` from util.py lines 23-28: `getattr`-based lookup of a
`PCRE_*` constant after normalisation; `none` when absent. -/
def constantOf (name : String) : Option Nat :=
  pcreConstants.lookup (normalise_constant name)

/-- The loop of `normalise_options` (util.py lines 49-53): keep the
normalised name of every token that resolves to a known constant. -/
def normaliseLoop : List String → List String
  | [] => []
  | name :: rest =>
    let n := normalise_constant name
    match constantOf n with
    | some _ => n :: normaliseLoop rest
    | none => normaliseLoop rest

/-- `normalise_options(options)` from util.py lines 44-54. -/
def normalise_options (v : StrOrList) : List String :=
  normaliseLoop (extract_options v)

/-- The warning line written to stderr by `extract_option_values`
(util.py line 64). -/
def warnUnknown (option : String) : String :=
  "Warning: ignoring unknown constant \"" ++ option ++ "\"\n"

/-- The loop of `extract_option_values` (util.py lines 61-66): first
component the yielded constant values, second component the warning lines
written to stderr, both in order. -/
def eovLoop : List String → List Nat × List String
  | [] => ([], [])
  | o :: os =>
    let r := eovLoop os
    match constantOf o with
    | none => (r.1, warnUnknown o :: r.2)
    | some v => (v :: r.1, r.2)

/-- `extract_option_values(arg_values)` from util.py lines 56-66, with the
stderr warnings made explicit as the second component. -/
def extract_option_values (v : StrOrList) : List Nat × List String :=
  eovLoop (extract_options v)

/-- `or_options(values, initial_value)` from util.py lines 68-75. -/
def or_options (values : List Nat) (initial_value : Nat) : Nat :=
  values.foldl (fun acc v => acc ||| v) initial_value

theorem lookup_mem {α β : Type} [BEq α] [LawfulBEq α] {l : List (α × β)} {a : α} {b : β}
    (h : l.lookup a = some b) : (a, b) ∈ l := by
  induction l with
  | nil => simp [List.lookup] at h
  | cons p rest ih =>
    rw [List.lookup] at h
    cases hpa : (a == p.1) with
    | true =>
      rw [hpa] at h
      simp only [] at h
      have ha : a = p.1 := by simpa using hpa
      have hb : p.2 = b := by simpa using h
      rw [ha, ← hb]
      exact List.mem_cons_self _ _
    | false =>
      rw [hpa] at h
      simp only [] at h
      exact List.mem_cons_of_mem _ (ih h)

theorem lowerUpper_lookup_snd_none : ∀ p ∈ lowerUpper, lowerUpper.lookup p.2 = none := by
  decide

theorem upChar_of_lookup_none {c : Char} (h : lowerUpper.lookup c = none) : upChar c = c := by
  simp [upChar, h]

theorem upChar_of_lookup_some {c u : Char} (h : lowerUpper.lookup c = some u) : upChar c = u := by
  simp [upChar, h]

theorem upChar_idem (c : Char) : upChar (upChar c) = upChar c := by
  cases h : lowerUpper.lookup c with
  | none => rw [upChar_of_lookup_none h, upChar_of_lookup_none h]
  | some u =>
    rw [upChar_of_lookup_some h]
    have hm : (c, u) ∈ lowerUpper := lookup_mem h
    have hn : lowerUpper.lookup u = none := lowerUpper_lookup_snd_none (c, u) hm
    rw [upChar_of_lookup_none hn]

theorem pyUpper_idem (s : String) : pyUpper (pyUpper s) = pyUpper s := by
  have hcomp : (fun c => upChar (upChar c)) = upChar := funext upChar_idem
  simp [pyUpper, String.toList, List.map_map, Function.comp_def, hcomp]

theorem string_append_mk (la lb : List Char) :
    (String.mk la ++ String.mk lb) = String.mk (la ++ lb) := rfl

theorem pyUpper_append (a b : String) : pyUpper (a ++ b) = pyUpper a ++ pyUpper b := by
  cases a with
  | mk la =>
    cases b with
    | mk lb =>
      rw [string_append_mk]
      simp [pyUpper, String.toList, string_append_mk]

theorem pyUpper_PCRE : pyUpper "PCRE_" = "PCRE_" := by decide

theorem toList_append_PCRE (s : String) :
    ("PCRE_" ++ s).toList = 'P' :: 'C' :: 'R' :: 'E' :: '_' :: s.toList := by
  cases s with
  | mk l => rfl

theorem normalise_constant_idem (name : String) :
    normalise_constant (normalise_constant name) = normalise_constant name := by
  by_cases h : startsWithPCRE (pyUpper name).toList
  · have hd : startsWithPCRE (pyUpper name).data = true := h
    have h1 : normalise_constant name = pyUpper name := by
      simp [normalise_constant, hd]
    rw [h1]
    simp [normalise_constant, pyUpper_idem, hd]
  · have hd : startsWithPCRE (pyUpper name).data = false := by
      have := h
      simp only [String.toList] at this
      simpa using this
    have h1 : normalise_constant name = "PCRE_" ++ pyUpper name := by
      simp [normalise_constant, hd]
    rw [h1]
    have hup : pyUpper ("PCRE_" ++ pyUpper name) = "PCRE_" ++ pyUpper name := by
      rw [pyUpper_append, pyUpper_PCRE, pyUpper_idem]
    have hstart : startsWithPCRE ("PCRE_" ++ pyUpper name).data = true := by
      have hl : ("PCRE_" ++ pyUpper name).data
          = 'P' :: 'C' :: 'R' :: 'E' :: '_' :: (pyUpper name).data :=
        toList_append_PCRE (pyUpper name)
      rw [hl]
      rfl
    simp [normalise_constant, hup, hstart]
    intro hcontra
    simp [startsWithPCRE] at hcontra

theorem constantOf_normalise (t : String) :
    constantOf (normalise_constant t) = constantOf t := by
  simp [constantOf, normalise_constant_idem]

theorem normaliseLoop_eq (ts : List String) :
    normaliseLoop ts = ts.filterMap
      (fun t => if (constantOf t).isSome then some (normalise_constant t) else none) := by
  induction ts with
  | nil => rfl
  | cons t rest ih =>
    show (match constantOf (normalise_constant t) with
      | some _ => normalise_constant t :: normaliseLoop rest
      | none => normaliseLoop rest) = _
    rw [constantOf_normalise]
    cases hc : constantOf t with
    | none => simp [List.filterMap_cons, hc, ih]
    | some v => simp [List.filterMap_cons, hc, ih]

theorem eovLoop_eq (ts : List String) :
    eovLoop ts = (ts.filterMap constantOf,
      (ts.filter (fun t => (constantOf t).isNone)).map warnUnknown) := by
  induction ts with
  | nil => rfl
  | cons t rest ih =>
    show (match constantOf t with
      | none => ((eovLoop rest).1, warnUnknown t :: (eovLoop rest).2)
      | some v => (v :: (eovLoop rest).1, (eovLoop rest).2)) = _
    cases hc : constantOf t with
    | none => simp [List.filterMap_cons, List.filter_cons, hc, ih]
    | some v => simp [List.filterMap_cons, List.filter_cons, hc, ih]

/-- C7: an option token that does not resolve to a known `PCRE_*` constant
is silently omitted by `normalise_options`; `extract_option_values` omits
it from the yielded values and emits exactly one stderr warning per
unresolved token occurrence; both functions are total (no error). -/
theorem unknown_options_dropped (v : StrOrList) :
    normalise_options v = (extract_options v).filterMap
      (fun t => if (constantOf t).isSome then some (normalise_constant t) else none)
    ∧ (extract_option_values v).1 = (extract_options v).filterMap constantOf
    ∧ (extract_option_values v).2
        = ((extract_options v).filter (fun t => (constantOf t).isNone)).map warnUnknown := by
  refine ⟨?_, ?_, ?_⟩
  · rw [normalise_options, normaliseLoop_eq]
  · rw [extract_option_values, eovLoop_eq]
  · rw [extract_option_values, eovLoop_eq]

theorem pcreConstants_key_facts :
    ∀ p ∈ pcreConstants, normalise_constant p.1 = p.1 ∧ stripOption p.1 = p.1
      ∧ p.1 ≠ "" ∧ splitPipe p.1 = [p.1] := by
  decide

theorem mem_normaliseLoop {k : String} {ts : List String} (h : k ∈ normaliseLoop ts) :
    (constantOf k).isSome ∧ ∃ t, k = normalise_constant t := by
  induction ts with
  | nil => simp [normaliseLoop] at h
  | cons t rest ih =>
    have h' : k ∈ (match constantOf (normalise_constant t) with
      | some _ => normalise_constant t :: normaliseLoop rest
      | none => normaliseLoop rest) := h
    cases hc : constantOf (normalise_constant t) with
    | none =>
      rw [hc] at h'
      exact ih h'
    | some v =>
      rw [hc] at h'
      rcases List.mem_cons.mp h' with heq | hmem
      · subst heq
        exact ⟨by simp [hc], t, rfl⟩
      · exact ih hmem

theorem extractLoop_fixed (l : List String)
    (hgood : ∀ k ∈ l, stripOption k = k ∧ k ≠ "" ∧ splitPipe k = [k]) :
    extractLoop l = l := by
  induction l with
  | nil => rfl
  | cons k rest ih =>
    obtain ⟨hstrip, hne, hsplit⟩ := hgood k (List.mem_cons_self _ _)
    have hrest := fun x hx => hgood x (List.mem_cons_of_mem _ hx)
    rw [extractLoop, hsplit, ih hrest]
    show (if stripOption k = "" then yieldOptions [] else stripOption k :: yieldOptions []) ++ rest
      = k :: rest
    rw [hstrip, if_neg hne]
    rfl

theorem normaliseLoop_fixed (l : List String)
    (hgood : ∀ k ∈ l, normalise_constant k = k ∧ pcreConstants.lookup k ≠ none) :
    normaliseLoop l = l := by
  induction l with
  | nil => rfl
  | cons k rest ih =>
    obtain ⟨hnc, hlk⟩ := hgood k (List.mem_cons_self _ _)
    have hrest := fun x hx => hgood x (List.mem_cons_of_mem _ hx)
    show (match constantOf (normalise_constant k) with
      | some _ => normalise_constant k :: normaliseLoop rest
      | none => normaliseLoop rest) = k :: rest
    have hco : constantOf (normalise_constant k) = pcreConstants.lookup k := by
      rw [constantOf_normalise, constantOf, hnc]
    cases hl : pcreConstants.lookup k with
    | none => exact absurd hl hlk
    | some v =>
      rw [hco, hl, hnc, ih hrest]

/-- C8: option normalisation is idempotent — applying `normalise_options`
to the result of `normalise_options` yields the same list. -/
theorem normalise_options_idem (v : StrOrList) :
    normalise_options (StrOrList.list (normalise_options v)) = normalise_options v := by
  have hmem : ∀ k ∈ normalise_options v,
      normalise_constant k = k ∧ ∃ w, pcreConstants.lookup k = some w := by
    intro k hk
    obtain ⟨hsome, t, ht⟩ :=
      mem_normaliseLoop (show k ∈ normaliseLoop (extract_options v) from hk)
    have hfix : normalise_constant k = k := by
      rw [ht, normalise_constant_idem]
    refine ⟨hfix, ?_⟩
    rw [constantOf, hfix] at hsome
    exact Option.isSome_iff_exists.mp hsome
  have hgood : ∀ k ∈ normalise_options v,
      normalise_constant k = k ∧ stripOption k = k ∧ k ≠ "" ∧ splitPipe k = [k]
        ∧ pcreConstants.lookup k ≠ none := by
    intro k hk
    obtain ⟨hfix, w, hw⟩ := hmem k hk
    have hkey := pcreConstants_key_facts (k, w) (lookup_mem hw)
    exact ⟨hfix, hkey.2.1, hkey.2.2.1, hkey.2.2.2, by simp [hw]⟩
  show normaliseLoop (extractLoop (normalise_options v)) = normalise_options v
  rw [extractLoop_fixed _ (fun k hk => ⟨(hgood k hk).2.1, (hgood k hk).2.2.1, (hgood k hk).2.2.2.1⟩)]
  exact normaliseLoop_fixed _ (fun k hk => ⟨(hgood k hk).1, (hgood k hk).2.2.2.2⟩)

/-- The two Python exception kinds the reference resolver can raise
(util.py lines 105, 109): `KeyError` and `IndexError`. -/
inductive PyErr where
  | keyError
  | indexError
deriving DecidableEq, Repr

/-- A dynamically-typed document field value: an integer (treated as a
reference-list index by `get_value`), a string, or a list of strings. -/
inductive Val where
  | int (i : Int)
  | str (s : String)
  | strs (l : List String)
deriving DecidableEq, Repr

/-- Python sequence indexing `reference[i]`: negative indices count from
the end; anything still out of range raises `IndexError` (modelled as
`none`). -/
def pyIndex {α : Type} (l : List α) (i : Int) : Option α :=
  if i < 0 then
    if 0 ≤ i + (l.length : Int) then l.get? (i + (l.length : Int)).toNat else none
  else l.get? i.toNat

/-- `get_value(obj, key, reference, default)` from util.py lines 94-112:
`obj[key]` if present and not an integer; `reference[obj[key]]` if an
integer; the default (when supplied, i.e. not `None`) on `KeyError` or
`IndexError`; otherwise the exception propagates. -/
def get_value (obj : List (String × Val)) (key : String) (reference : List Val)
    (default : Option Val) : Except PyErr Val :=
  match obj.lookup key with
  | none =>
    match default with
    | some d => .ok d
    | none => .error .keyError
  | some (Val.int i) =>
    match pyIndex reference i with
    | some r => .ok r
    | none =>
      match default with
      | some d => .ok d
      | none => .error .indexError
  | some v => .ok v

/-- C5: the reference resolver returns `reference[obj[key]]` for a present
integer field, the field verbatim when present and not an integer, and on
a missing key or out-of-range index returns the supplied default or else
propagates a failure whose kind distinguishes the two cases. -/
theorem get_value_resolution (obj : List (String × Val)) (key : String)
    (reference : List Val) (dflt : Option Val) :
    (∀ v, obj.lookup key = some v → (∀ i, v ≠ Val.int i) →
      get_value obj key reference dflt = .ok v)
    ∧ (∀ i r, obj.lookup key = some (Val.int i) → pyIndex reference i = some r →
      get_value obj key reference dflt = .ok r)
    ∧ (obj.lookup key = none →
      (∀ d, dflt = some d → get_value obj key reference dflt = .ok d)
      ∧ (dflt = none → get_value obj key reference dflt = .error PyErr.keyError))
    ∧ (∀ i, obj.lookup key = some (Val.int i) → pyIndex reference i = none →
      (∀ d, dflt = some d → get_value obj key reference dflt = .ok d)
      ∧ (dflt = none → get_value obj key reference dflt = .error PyErr.indexError))
    ∧ PyErr.keyError ≠ PyErr.indexError := by
  refine ⟨?_, ?_, ?_, ?_, by simp⟩
  · intro v hv hni
    cases v with
    | int i => exact absurd rfl (hni i)
    | str s => simp [get_value, hv]
    | strs l => simp [get_value, hv]
  · intro i r hv hpy
    simp [get_value, hv, hpy]
  · intro hv
    exact ⟨fun d hd => by simp [get_value, hv, hd], fun hd => by simp [get_value, hv, hd]⟩
  · intro i hv hpy
    exact ⟨fun d hd => by simp [get_value, hv, hpy, hd],
      fun hd => by simp [get_value, hv, hpy, hd]⟩

theorem get_value_resolution_witness :
    get_value [("value1", Val.str "real"), ("value2", Val.int 2), ("value3", Val.int 3)]
        "value1" [Val.str "foo", Val.str "bar", Val.str "baz"] none = .ok (Val.str "real")
    ∧ get_value [("value1", Val.str "real"), ("value2", Val.int 2), ("value3", Val.int 3)]
        "value2" [Val.str "foo", Val.str "bar", Val.str "baz"] none = .ok (Val.str "baz")
    ∧ get_value [("value1", Val.str "real"), ("value2", Val.int 2), ("value3", Val.int 3)]
        "value4" [Val.str "foo", Val.str "bar", Val.str "baz"] none = .error PyErr.keyError
    ∧ get_value [("value1", Val.str "real"), ("value2", Val.int 2), ("value3", Val.int 3)]
        "value3" [Val.str "foo", Val.str "bar", Val.str "baz"] none = .error PyErr.indexError
    ∧ get_value [("value1", Val.str "real"), ("value2", Val.int 2), ("value3", Val.int 3)]
        "value3" [Val.str "foo", Val.str "bar", Val.str "baz"] (some (Val.str "dd"))
        = .ok (Val.str "dd") := by
  refine ⟨?_, ?_, ?_, ?_, ?_⟩
  · exact (get_value_resolution _ "value1" _ none).1 _ (by decide) (by simp)
  · exact (get_value_resolution _ "value2" _ none).2.1 2 _ (by decide) (by decide)
  · exact ((get_value_resolution _ "value4" _ none).2.2.1 (by decide)).2 rfl
  · exact ((get_value_resolution _ "value3" _ none).2.2.2.1 3 (by decide) (by decide)).2 rfl
  · exact ((get_value_resolution _ "value3" _ (some (Val.str "dd"))).2.2.2.1 3
      (by decide) (by decide)).1 _ rfl

/-- C9: a negative integer field `-k` with `1 ≤ k ≤ len(reference)` is
resolved by Python's negative indexing to the k-th element from the end,
not treated as out of range. -/
theorem get_value_negative_index (obj : List (String × Val)) (key : String)
    (reference : List Val) (dflt : Option Val) (k : Nat) (v : Val)
    (h1 : 1 ≤ k) (h2 : k ≤ reference.length)
    (hlk : obj.lookup key = some (Val.int (-(k : Int))))
    (hv : reference.get? (reference.length - k) = some v) :
    get_value obj key reference dflt = .ok v := by
  have hlt : (-(k : Int)) < 0 := by omega
  have hge : 0 ≤ (-(k : Int)) + (reference.length : Int) := by omega
  have htn : ((-(k : Int)) + (reference.length : Int)).toNat = reference.length - k := by
    omega
  have hpy : pyIndex reference (-(k : Int)) = some v := by
    rw [pyIndex, if_pos hlt, if_pos hge, htn, hv]
  simp [get_value, hlk, hpy]

theorem get_value_negative_index_witness :
    get_value [("value5", Val.int (-1))] "value5"
      [Val.str "foo", Val.str "bar", Val.str "baz"] none = .ok (Val.str "baz") := by
  exact get_value_negative_index _ "value5" _ none 1 _ (by decide) (by decide)
    (by decide) (by decide)

/-- The capture structure returned by `get_captures` (pcre.py line 400):
`by_index` the numbered captures, `by_name` a dict from group name to
capture value (`none` models Python `None`). -/
structure CapResult where
  by_index : List String
  by_name : List (String × Option String)
deriving DecidableEq, Repr

/-- Python dict assignment `d[k] = v`: overwrite in place if the key
exists, else append (insertion order preserved). -/
def dictInsert (d : List (String × Option String)) (k : String) (v : Option String) :
    List (String × Option String) :=
  match d with
  | [] => [(k, v)]
  | (k', v') :: rest => if k' = k then (k, v) :: rest else (k', v') :: dictInsert rest k v

/-- `get_captures` from pcre.py lines 384-400, with the numbered captures
(`matches`, sliced out of the subject bytes by `get_capture`) taken as
input: `by_name[name] = matches[index]` for each name-table entry, and
`None` on `IndexError` (`matchList.get? index` is exactly
"`matches[index]` or `None` on IndexError" for the unsigned indices the
name table contains). -/
def get_captures (nametable : List (Nat × String)) (matchList : List String) : CapResult :=
  { by_index := matchList,
    by_name := nametable.foldl (fun d p => dictInsert d p.2 (matchList.get? p.1)) [] }

theorem lookup_dictInsert_self (d : List (String × Option String)) (k : String)
    (v : Option String) : (dictInsert d k v).lookup k = some v := by
  induction d with
  | nil => simp [dictInsert, List.lookup]
  | cons p rest ih =>
    cases p with
    | mk k' v' =>
      by_cases h : k' = k
      · simp [dictInsert, h, List.lookup]
      · simp only [dictInsert, if_neg h, List.lookup]
        have : (k == k') = false := by
          simp [Ne.symm h]
        rw [this]
        exact ih

theorem lookup_dictInsert_other (d : List (String × Option String)) (k k' : String)
    (v : Option String) (h : k' ≠ k) :
    (dictInsert d k v).lookup k' = d.lookup k' := by
  induction d with
  | nil =>
    simp only [dictInsert, List.lookup]
    have : (k' == k) = false := by simp [h]
    rw [this]
  | cons p rest ih =>
    cases p with
    | mk a b =>
      by_cases ha : a = k
      · subst ha
        simp only [dictInsert, if_pos rfl, List.lookup]
        have h1 : (k' == a) = false := by simp [h]
        rw [h1]
      · simp only [dictInsert, if_neg ha, List.lookup]
        cases hb : (k' == a) with
        | true => rfl
        | false => exact ih

theorem foldl_dictInsert_no_name (matchList : List String) (name : String)
    (l : List (Nat × String)) :
    ∀ d : List (String × Option String), (∀ p ∈ l, p.2 ≠ name) →
      (l.foldl (fun d p => dictInsert d p.2 (matchList.get? p.1)) d).lookup name
        = d.lookup name := by
  induction l with
  | nil => intro d _; rfl
  | cons q rest ih =>
    intro d hl
    rw [List.foldl_cons]
    rw [ih _ (fun p hp => hl p (List.mem_cons_of_mem _ hp))]
    exact lookup_dictInsert_other d q.2 name (matchList.get? q.1)
      (Ne.symm (hl q (List.mem_cons_self _ _)))

/-- C4 (amended): for a capture extraction with `match_count ≥ 1` and a
name-table entry `(i, name)` that is the *last* entry bearing `name`
(always the case when names are unique; under `PCRE_DUPNAMES` a later
duplicate overwrites), `by_name[name]` is `by_index[i]` when `i` is a
valid index of `by_index`, and Python `None` (no error) when `i` is out
of range. -/
theorem get_captures_by_name_last_entry (matchList : List String)
    (i : Nat) (name : String) (l₁ l₂ : List (Nat × String))
    (_hm : 1 ≤ matchList.length)
    (hlast : ∀ p ∈ l₂, p.2 ≠ name) :
    ((get_captures (l₁ ++ (i, name) :: l₂) matchList).by_name.lookup name
      = some (matchList.get? i))
    ∧ (∀ h : i < matchList.length,
        (get_captures (l₁ ++ (i, name) :: l₂) matchList).by_name.lookup name
          = some (some (matchList.get ⟨i, h⟩)))
    ∧ (matchList.length ≤ i →
        (get_captures (l₁ ++ (i, name) :: l₂) matchList).by_name.lookup name
          = some none) := by
  have hmain : ((get_captures (l₁ ++ (i, name) :: l₂) matchList).by_name.lookup name
      = some (matchList.get? i)) := by
    show ((l₁ ++ (i, name) :: l₂).foldl
      (fun d p => dictInsert d p.2 (matchList.get? p.1)) []).lookup name = _
    rw [List.foldl_append, List.foldl_cons]
    rw [foldl_dictInsert_no_name matchList name l₂ _ hlast]
    exact lookup_dictInsert_self _ name (matchList.get? i)
  refine ⟨hmain, ?_, ?_⟩
  · intro h
    rw [hmain, List.get?_eq_get h]
  · intro h
    rw [hmain, List.get?_eq_none.mpr h]

theorem get_captures_by_name_last_entry_witness :
    (1 ≤ (["It is raining cats and dogs", "cats", "dogs"] : List String).length
      ∧ (get_captures [(1, "rain1"), (2, "rain2")]
          ["It is raining cats and dogs", "cats", "dogs"]).by_name.lookup "rain2"
        = some (some "dogs"))
    ∧ (get_captures [(3, "name3")] ["ab"]).by_name.lookup "name3" = some none := by
  refine ⟨⟨by decide, ?_⟩, ?_⟩
  · have h := get_captures_by_name_last_entry
      ["It is raining cats and dogs", "cats", "dogs"] 2 "rain2"
      [(1, "rain1")] [] (by decide) (by simp)
    exact h.2.1 (by decide)
  · have h := get_captures_by_name_last_entry ["ab"] 3 "name3" [] [] (by decide) (by simp)
    exact h.2.2 (by decide)

/-- C4 counterexample to the claim as stated: with a duplicate name in the
name table (possible under `PCRE_DUPNAMES`, e.g. pattern
`(?J)(?<a>x)(?<a>y)` matched with three captured groups), the entry
`(1, "a")` does NOT satisfy `by_name["a"] = by_index[1]`: the later entry
`(2, "a")` overwrote the dict slot. -/
theorem get_captures_by_name_counterexample :
    (1, "a") ∈ ([(1, "a"), (2, "a")] : List (Nat × String))
    ∧ (1 : Nat) < (get_captures [(1, "a"), (2, "a")] ["m", "x", "y"]).by_index.length
    ∧ (get_captures [(1, "a"), (2, "a")] ["m", "x", "y"]).by_index.get? 1 = some "x"
    ∧ (get_captures [(1, "a"), (2, "a")] ["m", "x", "y"]).by_name.lookup "a"
        = some (some "y")
    ∧ (some (some "y") : Option (Option String)) ≠ some (some "x") := by
  refine ⟨by decide, by decide, by decide, ?_, by decide⟩
  rfl

/-- Python list assignment `l[i] = a`: in place for `0 ≤ i < len(l)`
(the name-table indices are unsigned), `IndexError` (modelled `none`)
otherwise. -/
def listSetPy {α : Type} (l : List α) (i : Nat) (a : α) : Option (List α) :=
  if i < l.length then some (l.set i a) else none

/-- `ordered_nametable` from pcre.py lines 364-373: start from
`[None] * (len(nametable) + 1)` and assign `result[index] = name` for each
name-table entry; an out-of-range assignment raises `IndexError`
(propagated here as `none`). -/
def ordered_nametable (nametable : List (Nat × String)) : Option (List (Option String)) :=
  nametable.foldlM (fun acc p => listSetPy acc p.1 (some p.2))
    (List.replicate (nametable.length + 1) none)

/-- C3: evaluation of `ordered_nametable` at the claim's failing input.
The name table `[(2, "x")]` arises from the perfectly compilable pattern
`(a)(?<x>b)` (one unnamed group before one named group): the result list
is sized `namecount + 1 = 2`, so the assignment at index 2 raises
`IndexError` instead of producing the list `[None, None, "x"]` of length
`highest named index + 1 = 3` that the claim describes.  On name tables
whose named groups occupy exactly indices `1..namecount` (such as the one
from the repository's own test `test_pcre_lib_info_nametable`) the code
does return the described list. -/
theorem ordered_nametable_gap_raises :
    ordered_nametable [(2, "x")] = none
    ∧ ordered_nametable
        [(1, "all"), (2, "dotdotdot"), (3, "dashdashdash"), (4, "dotdotdotagain")]
      = some [none, some "all", some "dotdotdot", some "dashdashdash",
          some "dotdotdotagain"] := by
  constructor
  · rfl
  · rfl

/-- The payload of `PCRECompileException` (pcre.py lines 128-143): the
engine's error message and the byte offset where the error was detected. -/
structure CompileErr where
  message : String
  offset : Int
deriving DecidableEq, Repr

/-- The foreign engine binding (`PCRELibrary`, pcre.py): `compile` returns
an opaque numeric handle or raises a compile error; `exec` returns a
capture structure, or `none` for "no match" (`pcre_exec` returning a
non-positive match count).  Both are abstract: libpcre is outside the
repository. -/
structure Engine where
  compile : String → Nat → Except CompileErr Nat
  exec : Nat → String → Nat → Option CapResult

/-- The `error` sub-object of a processed pattern
(`{message: ..., offset: ...}`, util.py lines 123-126). -/
structure ErrInfo where
  message : Option String
  offset : Option Int
deriving DecidableEq, Repr

/-- One Execution (`{subject, options}` plus the injected `match` /
`captures` keys; an `Option` field that is `none` models an absent key).
`subject` and `options` may be integer indices into the document's
reference lists. -/
structure Exe where
  subject : Option (Int ⊕ String)
  options : Option (Int ⊕ StrOrList)
  matched : Option Bool
  captures : Option (Option CapResult)
deriving DecidableEq, Repr

/-- One Pattern (`{value, options, execute?}` plus the injected `compile` /
`error` keys). -/
structure Pat where
  value : Option (Int ⊕ String)
  options : Option (Int ⊕ StrOrList)
  compileRes : Option Bool
  error : Option ErrInfo
  execute : Option (List Exe)
deriving DecidableEq, Repr

/-- A pecoregex document: four optional reference lists and the optional
pattern list (document.py). -/
structure Doc where
  compile_options : Option (List StrOrList)
  execute_options : Option (List StrOrList)
  pattern_strings : Option (List String)
  subject_strings : Option (List String)
  patterns : Option (List Pat)
deriving DecidableEq, Repr

/-- `add_compile_keys_to_pattern(pattern)` from util.py lines 114-130: set
`compile = True` and `error = {message: None, offset: None}` (the
detach/re-attach of `execute` only affects dict key order, which a record
does not have). -/
def add_compile_keys_to_pattern (p : Pat) : Pat :=
  { p with compileRes := some true, error := some { message := none, offset := none } }

/-- `get_value` (util.py lines 94-112) as used by `process` on a typed
field: `none` is an absent key, `Sum.inl i` an integer (reference-list
index), `Sum.inr v` a literal value.  Same try/except structure as
`get_value` above. -/
def resolveField {α : Type} (field : Option (Int ⊕ α)) (reference : List α)
    (default : Option α) : Except PyErr α :=
  match field with
  | none =>
    match default with
    | some d => .ok d
    | none => .error .keyError
  | some (.inl i) =>
    match pyIndex reference i with
    | some r => .ok r
    | none =>
      match default with
      | some d => .ok d
      | none => .error .indexError
  | some (.inr v) => .ok v

/-- Resource-lifecycle events emitted by the per-pattern processing: the
creation of a compiled-pattern handle and the `lib.free` call on it. -/
inductive Ev where
  | compileOk (code : Nat)
  | free (code : Nat)
deriving DecidableEq, Repr

/-- The body of the execution loop of `process` (util.py lines 166-171):
resolve subject and options, call `lib.exec`, set `match` and `captures`
(`{}` i.e. inner `none` when the result is falsy). -/
def processExe (eng : Engine) (code : Nat) (subjStr : List String)
    (eOpts : List StrOrList) (exe : Exe) : Except PyErr Exe :=
  match resolveField exe.subject subjStr none with
  | .error e => .error e
  | .ok subject =>
    match resolveField exe.options eOpts (some (StrOrList.list [])) with
    | .error e => .error e
    | .ok opts =>
      let res := eng.exec code subject (or_options (extract_option_values opts).1 0)
      .ok { exe with matched := some res.isSome, captures := some res }

/-- The execution loop of `process` over a pattern's `execute` list; a
reference-resolution failure propagates (aborting the loop). -/
def processExes (eng : Engine) (code : Nat) (subjStr : List String)
    (eOpts : List StrOrList) : List Exe → Except PyErr (List Exe)
  | [] => .ok []
  | e :: es =>
    match processExe eng code subjStr eOpts e with
    | .error err => .error err
    | .ok e' =>
      match processExes eng code subjStr eOpts es with
      | .error err => .error err
      | .ok es' => .ok (e' :: es')

/-- The per-pattern body of `process` (util.py lines 152-172): inject the
compile keys, resolve pattern text and compile options, compile; on a
compile error record it and skip the executions; on success run the
execution loop and then free the handle.  The second component is the
trace of handle lifecycle events; note that the source has no
`try/finally`, so an exception escaping the execution loop skips the
`lib.free(code)` call. -/
def processPattern (eng : Engine) (patStr subjStr : List String)
    (cOpts eOpts : List StrOrList) (p : Pat) : Except PyErr Pat × List Ev :=
  let p1 := add_compile_keys_to_pattern p
  match resolveField p.value patStr none with
  | .error e => (.error e, [])
  | .ok value =>
    match resolveField p.options cOpts (some (StrOrList.list [])) with
    | .error e => (.error e, [])
    | .ok opts =>
      match eng.compile value (or_options (extract_option_values opts).1 0) with
      | .error exc =>
        (.ok { p1 with
                compileRes := some false
                error := some { message := some exc.message, offset := some exc.offset } },
         [])
      | .ok code =>
        match processExes eng code subjStr eOpts (p.execute.getD []) with
        | .error e => (.error e, [Ev.compileOk code])
        | .ok exes =>
          (.ok { p1 with execute := if p.execute.isSome then some exes else none },
           [Ev.compileOk code, Ev.free code])

/-- The pattern loop of `process` (util.py line 152): patterns strictly in
order; an uncaught exception aborts the run. -/
def processPatterns (eng : Engine) (patStr subjStr : List String)
    (cOpts eOpts : List StrOrList) : List Pat → Except PyErr (List Pat) × List Ev
  | [] => (.ok [], [])
  | p :: ps =>
    match processPattern eng patStr subjStr cOpts eOpts p with
    | (.error e, ev) => (.error e, ev)
    | (.ok p', ev) =>
      match processPatterns eng patStr subjStr cOpts eOpts ps with
      | (.error e, evs) => (.error e, ev ++ evs)
      | (.ok ps', evs) => (.ok (p' :: ps'), ev ++ evs)

/-- `process(doc)` from util.py lines 132-173: no-op without a `patterns`
key, else fetch the four reference lists (default empty) and process each
pattern. -/
def process (eng : Engine) (doc : Doc) : Except PyErr Doc × List Ev :=
  match doc.patterns with
  | none => (.ok doc, [])
  | some ps =>
    match processPatterns eng (doc.pattern_strings.getD []) (doc.subject_strings.getD [])
        (doc.compile_options.getD []) (doc.execute_options.getD []) ps with
    | (.error e, ev) => (.error e, ev)
    | (.ok ps', ev) => (.ok { doc with patterns := some ps' }, ev)

/-- The pattern record after a failed compilation: `compile = False` and
the error fields populated from the `PCRECompileException`; every other
key (in particular `execute`) as before. -/
def failedPattern (p : Pat) (exc : CompileErr) : Pat :=
  { p with
    compileRes := some false
    error := some { message := some exc.message, offset := some exc.offset } }

/-- C1: when a pattern's compilation fails, the processor sets
`compile = False`, fills `error.message` / `error.offset` from the
failure, leaves the pattern's `execute` list exactly as declared (no
`match` / `captures` keys), creates no handle (no events), and continues
with the remaining patterns in order. -/
theorem processPattern_compile_failure (eng : Engine) (patStr subjStr : List String)
    (cOpts eOpts : List StrOrList) (p : Pat) (value : String) (opts : StrOrList)
    (exc : CompileErr)
    (hv : resolveField p.value patStr none = .ok value)
    (ho : resolveField p.options cOpts (some (StrOrList.list [])) = .ok opts)
    (hc : eng.compile value (or_options (extract_option_values opts).1 0) = .error exc) :
    processPattern eng patStr subjStr cOpts eOpts p = (.ok (failedPattern p exc), [])
    ∧ (failedPattern p exc).execute = p.execute
    ∧ (failedPattern p exc).compileRes = some false
    ∧ (failedPattern p exc).error
        = some { message := some exc.message, offset := some exc.offset }
    ∧ ∀ ps, processPatterns eng patStr subjStr cOpts eOpts (p :: ps)
      = ((processPatterns eng patStr subjStr cOpts eOpts ps).1.map
          (fun l => failedPattern p exc :: l),
         (processPatterns eng patStr subjStr cOpts eOpts ps).2) := by
  have hpp : processPattern eng patStr subjStr cOpts eOpts p
      = (.ok (failedPattern p exc), []) := by
    simp [processPattern, add_compile_keys_to_pattern, failedPattern, hv, ho, hc]
  refine ⟨hpp, rfl, rfl, rfl, fun ps => ?_⟩
  rw [processPatterns, hpp]
  rcases h2 : processPatterns eng patStr subjStr cOpts eOpts ps with ⟨r, evs⟩
  cases r with
  | error e => simp [Except.map]
  | ok ps' => simp [Except.map]

/-- A one-pattern engine that always fails compilation, for the C1
witness. -/
def engineAlwaysFail : Engine where
  compile := fun _ _ => .error { message := "missing )", offset := 7 }
  exec := fun _ _ _ => none

/-- An execution declaring subject `"x"` and no options, for the C1
witness. -/
def exeSubjectX : Exe where
  subject := some (.inr "x")
  options := none
  matched := none
  captures := none

/-- A pattern with one declared execution, for the C1 witness. -/
def patternWithOneExe : Pat where
  value := some (.inr "^hello(")
  options := none
  compileRes := none
  error := none
  execute := some [exeSubjectX]

theorem processPattern_compile_failure_witness :
    processPattern engineAlwaysFail [] [] [] [] patternWithOneExe
      = (.ok (failedPattern patternWithOneExe { message := "missing )", offset := 7 }), [])
    ∧ (failedPattern patternWithOneExe { message := "missing )", offset := 7 }).execute
      = patternWithOneExe.execute := by
  have h := processPattern_compile_failure engineAlwaysFail [] [] [] [] patternWithOneExe
    "^hello(" (StrOrList.list []) { message := "missing )", offset := 7 } rfl rfl rfl
  exact ⟨h.1, h.2.1⟩

/-- C2 (amended): on every per-pattern run that terminates without a
propagated exception, the created handle is freed exactly once — also
with zero executions; on every run (including aborted ones) a handle is
freed at most once and only after it was created, and no handle is
created (hence none freed) when compilation fails.  The claim's
"every path, including any early exit out of the execution loop" part is
false: see the counterexample below — the source has no `try/finally`, so
an exception escaping the execution loop skips `lib.free`. -/
theorem processPattern_frees_exactly_once (eng : Engine) (patStr subjStr : List String)
    (cOpts eOpts : List StrOrList) (p : Pat) (h : Nat) :
    (∀ p', (processPattern eng patStr subjStr cOpts eOpts p).1 = .ok p' →
      Ev.compileOk h ∈ (processPattern eng patStr subjStr cOpts eOpts p).2 →
      ((processPattern eng patStr subjStr cOpts eOpts p).2).count (Ev.free h) = 1)
    ∧ ((processPattern eng patStr subjStr cOpts eOpts p).2).count (Ev.free h) ≤ 1
    ∧ (Ev.free h ∈ (processPattern eng patStr subjStr cOpts eOpts p).2 →
        Ev.compileOk h ∈ (processPattern eng patStr subjStr cOpts eOpts p).2) := by
  cases hv : resolveField p.value patStr none with
  | error e =>
    simp [processPattern, hv]
  | ok value =>
    cases ho : resolveField p.options cOpts (some (StrOrList.list [])) with
    | error e =>
      simp [processPattern, hv, ho]
    | ok opts =>
      cases hc : eng.compile value (or_options (extract_option_values opts).1 0) with
      | error exc =>
        simp [processPattern, hv, ho, hc]
      | ok code =>
        cases hx : processExes eng code subjStr eOpts (p.execute.getD []) with
        | error e =>
          simp only [processPattern, hv, ho, hc, hx]
          refine ⟨?_, ?_, ?_⟩
          · intro p' hp'
            simp at hp'
          · by_cases hhc : code = h <;>
              simp [List.count_cons, List.count_nil, hhc]
          · intro hmem
            simp at hmem
        | ok exes =>
          simp only [processPattern, hv, ho, hc, hx]
          refine ⟨?_, ?_, ?_⟩
          · intro p' _ hmem
            have hch : h = code := by
              simpa using hmem
            subst hch
            simp [List.count_cons, List.count_nil]
          · by_cases hhc : code = h <;>
              simp [List.count_cons, List.count_nil, hhc]
          · intro hmem
            have hch : h = code := by
              simpa using hmem
            subst hch
            simp

/-- An engine whose compiler always returns handle 7 and whose matcher
never matches, for the C2 witness and counterexample. -/
def engineHandle7 : Engine where
  compile := fun _ _ => .ok 7
  exec := fun _ _ _ => none

/-- A pattern with no `execute` key, for the C2 witness. -/
def patternNoExe : Pat where
  value := some (.inr "a")
  options := none
  compileRes := none
  error := none
  execute := none

theorem processPattern_frees_exactly_once_witness :
    ((processPattern engineHandle7 [] [] [] [] patternNoExe).2).count (Ev.free 7) = 1 := by
  refine (processPattern_frees_exactly_once engineHandle7 [] [] [] [] patternNoExe 7).1
    (add_compile_keys_to_pattern patternNoExe) (by rfl) (by decide)

/-- An execution with no `subject` key: resolving it raises `KeyError`. -/
def exeNoSubject : Exe where
  subject := none
  options := none
  matched := none
  captures := none

/-- A pattern whose single execution lacks a `subject` key. -/
def patternBadExe : Pat where
  value := some (.inr "a")
  options := none
  compileRes := none
  error := none
  execute := some [exeNoSubject]

/-- C2 counterexample to the claim as stated: the pattern compiles (handle
7 is created) but its single execution lacks a `subject` key, so the
execution loop raises `KeyError`; the run aborts and the handle is never
freed — `free` is not called exactly once on this path through the
per-pattern processing. -/
theorem processPattern_leak_counterexample :
    processPattern engineHandle7 [] [] [] [] patternBadExe
      = (.error PyErr.keyError, [Ev.compileOk 7])
    ∧ Ev.compileOk 7 ∈ [Ev.compileOk 7]
    ∧ ([Ev.compileOk 7] : List Ev).count (Ev.free 7) = 0 := by
  refine ⟨?_, by simp, by rfl⟩
  rfl

/-- The inner `normalise` helper of `normalise_doc_options` (util.py lines
81-84) on a typed options field, with `check_key=True, ignore_int=True`:
skip an absent key (`none`), skip an integer value (a reference-list
index), and replace any other value by the `normalise_options` list. -/
def normalise_opt_field : Option (Int ⊕ StrOrList) → Option (Int ⊕ StrOrList)
  | none => none
  | some (.inl i) => some (.inl i)
  | some (.inr v) => some (.inr (.list (normalise_options v)))

/-- `normalise(exe, EXECUTE_OPTIONS)` (util.py line 92). -/
def normalise_exe_options (e : Exe) : Exe :=
  { e with options := normalise_opt_field e.options }

/-- `normalise(pattern, COMPILE_OPTIONS)` plus the loop over the pattern's
executions (util.py lines 89-92). -/
def normalise_pattern_options (p : Pat) : Pat :=
  { p with
    options := normalise_opt_field p.options
    execute := p.execute.map (List.map normalise_exe_options) }

/-- `normalise_doc_options(doc)` from util.py lines 77-92: normalise every
entry of the two option reference lists (`check_key=False,
ignore_int=False`; entries are `OptionSet`s — `string | [string...]` per
the document schema, so the `ignore_int` flag makes no difference there),
then the options field of every pattern and of every execution. -/
def normalise_doc_options (doc : Doc) : Doc :=
  { doc with
    compile_options := doc.compile_options.map
      (List.map (fun v => StrOrList.list (normalise_options v)))
    execute_options := doc.execute_options.map
      (List.map (fun v => StrOrList.list (normalise_options v)))
    patterns := doc.patterns.map (List.map normalise_pattern_options) }

/-- C10: `normalise_doc_options` leaves every already-integer options
field unchanged, and touches nothing except the two option reference
lists and the options fields of patterns and executions: the string
reference lists, every pattern's `value` / `compile` / `error` keys and
every execution's `subject` / `match` / `captures` keys survive
unchanged, as do list lengths, order, and absent keys. -/
theorem normalise_doc_options_frame (doc : Doc) :
    (normalise_doc_options doc).pattern_strings = doc.pattern_strings
    ∧ (normalise_doc_options doc).subject_strings = doc.subject_strings
    ∧ (doc.patterns = none → (normalise_doc_options doc).patterns = none)
    ∧ ∀ ps i p, doc.patterns = some ps → ps.get? i = some p →
        ((normalise_doc_options doc).patterns.getD []).get? i
          = some (normalise_pattern_options p)
        ∧ (normalise_pattern_options p).value = p.value
        ∧ (normalise_pattern_options p).compileRes = p.compileRes
        ∧ (normalise_pattern_options p).error = p.error
        ∧ (∀ n : Int, p.options = some (.inl n)
            → (normalise_pattern_options p).options = p.options)
        ∧ (p.options = none → (normalise_pattern_options p).options = none)
        ∧ (p.execute = none → (normalise_pattern_options p).execute = none)
        ∧ ∀ es j e, p.execute = some es → es.get? j = some e →
            ((normalise_pattern_options p).execute.getD []).get? j
              = some (normalise_exe_options e)
            ∧ (normalise_exe_options e).subject = e.subject
            ∧ (normalise_exe_options e).matched = e.matched
            ∧ (normalise_exe_options e).captures = e.captures
            ∧ (∀ n : Int, e.options = some (.inl n)
                → (normalise_exe_options e).options = e.options)
            ∧ (e.options = none → (normalise_exe_options e).options = none) := by
  refine ⟨rfl, rfl, ?_, ?_⟩
  · intro h
    simp [normalise_doc_options, h]
  · intro ps i p hps hp
    refine ⟨?_, rfl, rfl, rfl, ?_, ?_, ?_, ?_⟩
    · simp [normalise_doc_options, hps, List.getElem?_map]
      exact ⟨p, by simpa using hp, rfl⟩
    · intro n hn
      simp [normalise_pattern_options, normalise_opt_field, hn]
    · intro hn
      simp [normalise_pattern_options, normalise_opt_field, hn]
    · intro hn
      simp [normalise_pattern_options, hn]
    · intro es j e hes he
      refine ⟨?_, rfl, rfl, rfl, ?_, ?_⟩
      · simp [normalise_pattern_options, hes, List.getElem?_map]
        exact ⟨e, by simpa using he, rfl⟩
      · intro n hn
        simp [normalise_exe_options, normalise_opt_field, hn]
      · intro hn
        simp [normalise_exe_options, normalise_opt_field, hn]

/-- An execution with a literal subject and an integer (reference-index)
options field, for the C10 witness. -/
def exeIntOptions : Exe where
  subject := some (.inr "s")
  options := some (.inl 1)
  matched := none
  captures := none

/-- A pattern whose `value` and `options` are reference indices, for the
C10 witness. -/
def patternIntOptions : Pat where
  value := some (.inl 0)
  options := some (.inl 2)
  compileRes := none
  error := none
  execute := some [exeIntOptions]

/-- A document exercising all the normalised and untouched fields, for
the C10 witness. -/
def docForFrame : Doc where
  compile_options := some [.str "caseless"]
  execute_options := none
  pattern_strings := some ["^a"]
  subject_strings := none
  patterns := some [patternIntOptions]

theorem normalise_doc_options_frame_witness :
    (normalise_doc_options docForFrame).pattern_strings = some ["^a"]
    ∧ ((normalise_doc_options docForFrame).patterns.getD []).get? 0
        = some (normalise_pattern_options patternIntOptions)
    ∧ (normalise_pattern_options patternIntOptions).options = patternIntOptions.options
    ∧ (normalise_exe_options exeIntOptions).options = exeIntOptions.options := by
  have h := normalise_doc_options_frame docForFrame
  have hpt := h.2.2.2 [patternIntOptions] 0 patternIntOptions rfl rfl
  refine ⟨?_, hpt.1, ?_, ?_⟩
  · rw [h.1]
    rfl
  · exact hpt.2.2.2.2.1 2 rfl
  · exact (hpt.2.2.2.2.2.2.2 [exeIntOptions] 0 exeIntOptions rfl rfl).2.2.2.2.1 1 rfl

end Pecoregex
